import Mathlib

/-!
Verification of the Delphes fast-simulation core (Calorimeter, FastJetFinder,
BTagging modules) against its natural-language specification.

The C++ modules are shallowly embedded: real-valued quantities (energies,
angles, transverse momenta) are modelled as rationals, machine integers as
`Nat`/`Int` (with an explicit `% 2 ^ 32` where a `UInt_t` could wrap), and the
external collaborators (ROOT's `TLorentzVector` distances, `TFormula`
evaluation, the FastJet clustering/trimming library, the Gaussian/uniform
random draws) are passed in as explicit function or data parameters, exactly
at the points where the modules call out to them.
-/

namespace Delphes

/-! ### Calorimeter η/φ bin lookup (Calorimeter.cc, `Calorimeter::Process`)

The source locates the η bin of a track or particle with
`itEtaBin = lower_bound(fEtaBins.begin(), fEtaBins.end(), position.Eta());
 if(itEtaBin == fEtaBins.begin() || itEtaBin == fEtaBins.end()) continue;
 etaBin = distance(fEtaBins.begin(), itEtaBin);`
and identically for the φ bin inside `fPhiBins[etaBin]`. -/

/-- `std::lower_bound` on a sorted vector: the index of the first element that
is not less than `x` (`xs.length` when every element is less than `x`). -/
def lowerBound (xs : List ℚ) (x : ℚ) : ℕ :=
  match xs with
  | [] => 0
  | y :: ys => if y < x then lowerBound ys x + 1 else 0

/-- The bin lookup of `Calorimeter::Process`: `none` models the `continue`
(hit dropped) taken when `lower_bound` returns `begin()` or `end()`; otherwise
the bin index `i` is returned, and the bin's edges are `edges[i-1], edges[i]`
(the code then reads `fEtaBins[etaBin - 1]` and `fEtaBins[etaBin]` as the
tower edges). -/
def findBin (edges : List ℚ) (x : ℚ) : Option ℕ :=
  let i := lowerBound edges x
  if i = 0 ∨ i = edges.length then none else some i

/-! ### Calorimeter log-normal smearing (Calorimeter.cc, `Calorimeter::LogNormal`) -/

/-- The external real-valued functions used by `Calorimeter::LogNormal`
(`TMath::Exp`, `TMath::Log`, `TMath::Sqrt`), passed in as parameters. -/
structure MathOps where
  exp : ℚ → ℚ
  log : ℚ → ℚ
  sqrt : ℚ → ℚ

/-- `Calorimeter::LogNormal(mean, sigma)`.  `g` stands for the one standard
normal draw `gRandom->Gaus(0, 1)` made inside the positive branch. -/
def logNormal (F : MathOps) (g : ℚ) (mean sigma : ℚ) : ℚ :=
  if 0 < mean then
    let b := F.sqrt (F.log (1 + sigma * sigma / (mean * mean)))
    let a := F.log mean - 1/2 * (b * b)
    F.exp (a + b * g)
  else
    0

/-! ### Calorimeter tower hits (Calorimeter.cc, `Calorimeter::Process`)

A hit is packed as
`towerHit = (Long64_t(etaBin) << 48) | (Long64_t(phiBin) << 32) | (Long64_t(flags) << 24) | Long64_t(number);`
with `flags = 1` for a track, and for a particle `flags = 0` together with
`flags |= (pdgCode == 11 || pdgCode == 22) << 1` (so `2` for an electron or a
photon and `0` otherwise).  The hit vector is then sorted ascending with
`sort(fTowerHits.begin(), fTowerHits.end());`. -/

/-- The packed 64-bit tower hit.  The fields are non-negative and small
(`etaBin`, `phiBin` are bin indices, `flags < 4`, `number` a 24-bit counter),
so the value is modelled in `ℕ`. -/
def packHit (etaBin phiBin flags index : ℕ) : ℕ :=
  (etaBin <<< 48) ||| (phiBin <<< 32) ||| (flags <<< 24) ||| index

/-- The ascending `std::sort` of the hit vector. -/
def sortHits (l : List ℕ) : List ℕ :=
  l.mergeSort fun a b => a ≤ b

/-- The scan loop recovers the tower key with `hitEtaPhi = towerHit >> 32`. -/
def hitEtaPhi (hit : ℕ) : ℕ := hit >>> 32

/-- The scan loop recovers the flags with `(towerHit >> 24) & 0xFF`. -/
def hitFlags (hit : ℕ) : ℕ := (hit >>> 24) % 2 ^ 8

/-! ### Calorimeter tower finalisation (Calorimeter.cc, `Calorimeter::FinalizeTower`) -/

/-- The per-tower accumulator state built by the scan loop of
`Calorimeter::Process` and read by `FinalizeTower`: the summed ECAL/HCAL
particle energies (`fTowerECalEnergy`/`fTowerHCalEnergy`), the summed
track energies (`fTrackECalEnergy`/`fTrackHCalEnergy`), the hit counters
(`fTowerTrackHits`/`fTowerPhotonHits`) and the accumulated track list
(`fTowerTrackArray`, here a list of track identifiers). -/
structure TowerState where
  ecalEnergy : ℚ
  hcalEnergy : ℚ
  trackEcal : ℚ
  trackHcal : ℚ
  trackHits : ℕ
  photonHits : ℕ
  tracks : List ℕ
deriving DecidableEq

/-- An emitted tower, reduced to the two smeared energy components written by
`FinalizeTower` (`fTower->Eem` and `fTower->Ehad`). -/
structure TowerEmit where
  eem : ℚ
  ehad : ℚ
deriving DecidableEq

/-- The additions `FinalizeTower` makes to the four output arrays
(`towers`, `photons`, `eflowTracks`, `eflowTowers`). -/
structure FinalizeResult where
  towersOut : List TowerEmit
  photonsOut : List TowerEmit
  eflowTracksOut : List ℕ
  eflowTowersOut : List TowerEmit
deriving DecidableEq

/-- `Calorimeter::FinalizeTower` (for a live tower, i.e. past the
`if(!fTower) return;` guard).  `sigmaE`/`sigmaH` are the values of the external
resolution formulas `fECalResolutionFormula->Eval`/`fHCalResolutionFormula->Eval`
and `gE`/`gH` the two standard normal draws consumed by the two `LogNormal`
calls. -/
def finalizeTower (F : MathOps) (gE gH sigmaE sigmaH : ℚ) (st : TowerState) :
    FinalizeResult :=
  let ecalEnergy := logNormal F gE st.ecalEnergy sigmaE
  let hcalEnergy := logNormal F gH st.hcalEnergy sigmaH
  let energy := ecalEnergy + hcalEnergy
  let tower : TowerEmit := ⟨ecalEnergy, hcalEnergy⟩
  let outs :=
    if 0 < energy then
      (if 0 < st.photonHits ∧ st.trackHits = 0 then [tower] else [],
       [tower])
    else ([], [])
  let ecalResid := ecalEnergy - st.trackEcal
  let ecalResid := if ecalResid < 0 then 0 else ecalResid
  let hcalResid := hcalEnergy - st.trackHcal
  let hcalResid := if hcalResid < 0 then 0 else hcalResid
  let residual := ecalResid + hcalResid
  { towersOut := outs.2
    photonsOut := outs.1
    eflowTracksOut := st.tracks
    eflowTowersOut := if 0 < residual then [⟨ecalResid, hcalResid⟩] else [] }

/-! ### Jet export loop (FastJetFinder.cc, `FastJetFinder::Process`)

The loop over `outputList` builds one output `Candidate` per jet.  `detaMax`
and `dphiMax` are initialised to `0.0` once, before the loop over the jets.
`DeltaR`, `Eta` and `DeltaPhi` of `TLorentzVector` are external; a jet is
modelled by its axis pseudorapidity/azimuth and the list of its constituents'
pseudorapidities/azimuths, and the azimuthal difference function (the external
`momentum.DeltaPhi(...)`, before the absolute value taken by the code) is a
parameter `dphiFn`. -/

/-- One jet handed back by the external clustering sequence: the jet axis
(η, φ) and the (η, φ) of each constituent. -/
structure JetIn where
  eta : ℚ
  phi : ℚ
  constituents : List (ℚ × ℚ)
deriving DecidableEq

/-- The two fields of the exported jet candidate the claims are about. -/
structure JetOut where
  deltaEta : ℚ
  deltaPhi : ℚ
deriving DecidableEq

/-- The inner constituent loop: for each constituent,
`deta = TMath::Abs(momentum.Eta() - constituent->Momentum.Eta());
 dphi = TMath::Abs(momentum.DeltaPhi(constituent->Momentum));
 if(deta > detaMax) detaMax = deta; if(dphi > dphiMax) dphiMax = dphi;`. -/
def jetConstituentScan (dphiFn : ℚ → ℚ → ℚ) (j : JetIn) (acc : ℚ × ℚ) : ℚ × ℚ :=
  j.constituents.foldl
    (fun acc c =>
      let deta := |j.eta - c.1|
      let dphi := |dphiFn j.phi c.2|
      (if acc.1 < deta then deta else acc.1,
       if acc.2 < dphi then dphi else acc.2))
    acc

/-- The loop over `outputList`: `detaMax`/`dphiMax` carry over from one jet to
the next (they are initialised before the loop in the source). -/
def jetExportLoop (dphiFn : ℚ → ℚ → ℚ) : ℚ × ℚ → List JetIn → List JetOut
  | _, [] => []
  | acc, j :: rest =>
    let acc := jetConstituentScan dphiFn j acc
    ⟨acc.1, acc.2⟩ :: jetExportLoop dphiFn acc rest

/-- The full export loop of `FastJetFinder::Process`, starting from
`detaMax = 0.0; dphiMax = 0.0;`. -/
def fastJetExport (dphiFn : ℚ → ℚ → ℚ) (jets : List JetIn) : List JetOut :=
  jetExportLoop dphiFn (0, 0) jets

/-- Modelled from the spec: `j.DeltaEta = max_c |η_c − η_j|`, the maximum over
the jet's own constituents only (spec §4.4 step 4 and §8), for comparison with
what the code computes. -/
def specDeltaEta (j : JetIn) : ℚ :=
  (j.constituents.map fun c => |j.eta - c.1|).foldl max 0

/-! ### Jet substructure (FastJetFinder.cc, `FastJetFinder::Process`)

Everything below `if (itOutputList->perp()>200){` in the source.  The external
FastJet trimmer and N-subjettiness routines are parameters: `TrimResult`
carries `trimmed_jet.m()` and the masses of `trimmed_jet.pieces()`, and
`NSubResult` the three `Nsubjettiness` values. -/

/-- Output of the external trimmer `trimmer(*itOutputList)`. -/
structure TrimResult where
  trimmedMassRaw : ℚ
  subjetMasses : List ℚ
deriving DecidableEq

/-- Output of the external `Nsubjettiness` functors. -/
structure NSubResult where
  tau1 : ℚ
  tau2 : ℚ
  tau3 : ℚ
deriving DecidableEq

/-- The substructure fields of the output jet candidate. -/
structure Substructure where
  trimmedMass : ℚ
  nSubJets : ℕ
  massDrop : ℚ
  tau1 : ℚ
  tau2 : ℚ
  tau3 : ℚ
  wTag : ℕ
  topTag : ℕ
  hTag : ℕ
deriving DecidableEq

/-- The zero-initialised defaults of a fresh candidate (the factory
zero-initialises every attribute; none of these fields is written outside the
substructure block). -/
def defaultSubstructure : Substructure :=
  ⟨0, 0, 0, 0, 0, 0, 0, 0, 0⟩

/-- The subjet-mass loop:
`double largest_mass_subjet = 0; for ... if (kept_subjets[i].m() > largest_mass_subjet) largest_mass_subjet = kept_subjets[i].m();`. -/
def largestSubjetMass (masses : List ℚ) : ℚ :=
  masses.foldl (fun acc m => if acc < m then m else acc) 0

/-- The substructure block of `FastJetFinder::Process` for one jet of
transverse momentum `pt`, guarded by `if (itOutputList->perp()>200)`. -/
def computeSubstructure (pt : ℚ) (trim : TrimResult) (nsub : NSubResult) :
    Substructure :=
  if 200 < pt then
    let trimmedMass := trim.trimmedMassRaw
    let trimmedMass := if trimmedMass < 0 then 0 else trimmedMass
    let largest := largestSubjetMass trim.subjetMasses
    let massdrop := if trimmedMass ≠ 0 then largest / trimmedMass else 1
    { trimmedMass := trimmedMass
      nSubJets := trim.subjetMasses.length
      massDrop := massdrop
      tau1 := nsub.tau1
      tau2 := nsub.tau2
      tau3 := nsub.tau3
      wTag := if massdrop < 2/5 ∧ 60 < trimmedMass ∧ trimmedMass < 120 then 1 else 0
      topTag := if 3 ≤ trim.subjetMasses.length ∧ 140 < trimmedMass ∧ trimmedMass < 230 then 1 else 0
      hTag := if massdrop < 2/5 ∧ 100 < trimmedMass ∧ trimmedMass < 140 then 1 else 0 }
  else defaultSubstructure

/-! ### B-tagging flavour assignment (BTagging.cc)

A `Candidate` is reduced to the attributes the flavour code reads.  The
external `TLorentzVector::DeltaR` distances are parameters: `dr a b` models
`a->Momentum.DeltaR(b->Momentum)` and `drJet c` models
`jet->Momentum.DeltaR(c->Momentum)` for the jet under consideration. -/

/-- The generator-level attributes of a `Candidate` read by `BTagging`. -/
structure Cand where
  pid : Int
  charge : Int
  status : Int
  pt : ℚ
  m1 : Int
  m2 : Int
  d1 : Int
  d2 : Int
deriving DecidableEq

/-- Modelled from the spec: the zero-initialised `Candidate` produced by the
default constructor (`DelphesClasses.cc` is not under `src/`); kinematics and
PID are zero, mother/daughter indices are the absent sentinel `-1`
(spec §3: M1/M2/D1/D2 are either −1 (absent) or valid indices). -/
def defaultCand : Cand :=
  ⟨0, 0, 0, 0, -1, -1, -1, -1⟩

/-- The double-counting test of `GetAlgoFlavour`:
`parton->Momentum.DeltaR(LHEParton->Momentum) < 0.001 and parton->PID == LHEParton->PID and LHEParton->Charge == parton->Charge`. -/
def isMatchAlgo (dr : Cand → Cand → ℚ) (parton lhe : Cand) : Prop :=
  dr parton lhe < 1/1000 ∧ parton.pid = lhe.pid ∧ lhe.charge = parton.charge

instance (dr : Cand → Cand → ℚ) (parton lhe : Cand) :
    Decidable (isMatchAlgo dr parton lhe) := by
  unfold isMatchAlgo; infer_instance

/-- The daughter check of `GetAlgoFlavour` (BTagging.cc lines 311..322),
counting daughters of `parton` (indices into `allParticles`) whose flavour is
a quark or gluon.  The second disjunct list of the source tests
`daughterFlavour1 == 5` where `daughterFlavour2 == 5` was presumably meant;
the embedding reproduces the source as written. -/
def npartonDaughters (all : List Cand) (parton : Cand) : ℕ :=
  if parton.d1 ≠ -1 ∨ parton.d2 ≠ -1 then
    let daughterFlavour1 : Int :=
      if parton.d1 ≠ -1 then ((all.getD parton.d1.toNat defaultCand).pid).natAbs else -1
    let daughterFlavour2 : Int :=
      if parton.d2 ≠ -1 then ((all.getD parton.d2.toNat defaultCand).pid).natAbs else -1
    (if daughterFlavour1 = 1 ∨ daughterFlavour1 = 2 ∨ daughterFlavour1 = 3 ∨
        daughterFlavour1 = 4 ∨ daughterFlavour1 = 5 ∨ daughterFlavour1 = 21
     then 1 else 0) +
    (if daughterFlavour2 = 1 ∨ daughterFlavour2 = 2 ∨ daughterFlavour2 = 3 ∨
        daughterFlavour2 = 4 ∨ daughterFlavour1 = 5 ∨ daughterFlavour2 = 21
     then 1 else 0)
  else 0

/-- The mutable locals of `GetAlgoFlavour`. -/
structure AlgoState where
  minDr : ℚ
  maxPt : ℚ
  tempParticle : Cand
  tempNearest : Cand
  tempHighestPt : Cand
deriving DecidableEq

/-- The initial locals: `float maxPt = 0; float minDr = 1000;` and
default-constructed temporaries. -/
def initAlgoState : AlgoState :=
  ⟨1000, 0, defaultCand, defaultCand, defaultCand⟩

/-- The in-cone update block of `GetAlgoFlavour` (BTagging.cc lines 325..335),
run with `dist = jet->Momentum.DeltaR(parton->Momentum)`. -/
def algoUpdate (parton : Cand) (dist : ℚ) (st : AlgoState) : AlgoState :=
  let st := if dist < st.minDr then { st with minDr := dist, tempNearest := parton } else st
  let st := if parton.pid.natAbs = 4 then { st with tempParticle := parton } else st
  let st := if parton.pid.natAbs = 5 then { st with tempParticle := parton } else st
  let st := if st.maxPt < parton.pt then { st with maxPt := parton.pt, tempHighestPt := parton } else st
  st

/-- The inner loop of `GetAlgoFlavour` over the filtered LHE partons: the loop
breaks at the first double-counting match, and otherwise — when the
daughter check passes and the parton is within the cone — runs the update
block once per remaining LHE parton. -/
def algoInner (dr : Cand → Cand → ℚ) (drJet : Cand → ℚ) (all : List Cand)
    (deltaR : ℚ) (parton : Cand) : AlgoState → List Cand → AlgoState
  | st, [] => st
  | st, lhe :: rest =>
    if isMatchAlgo dr parton lhe then st
    else
      let st :=
        if 0 < npartonDaughters all parton then st
        else if drJet parton ≤ deltaR then algoUpdate parton (drJet parton) st
        else st
      algoInner dr drJet all deltaR parton st rest

/-- The outer loop of `GetAlgoFlavour` over the filtered post-shower
partons. -/
def algoLoop (dr : Cand → Cand → ℚ) (drJet : Cand → ℚ) (all lhes : List Cand)
    (deltaR : ℚ) : AlgoState → List Cand → AlgoState
  | st, [] => st
  | st, p :: rest =>
    algoLoop dr drJet all lhes deltaR (algoInner dr drJet all deltaR p st lhes) rest

/-- The four flavour results of `GetAlgoFlavour` the claims are about
(`flavourDefault` is additionally written from the locals `pdgCode` and
`pdgCodeMax`, both of which are read before ever being initialised in the
source, so it has no defined value and is not modelled). -/
structure AlgoFlavours where
  heaviest : ℕ
  highestPt : ℕ
  nearest2 : ℕ
  algo : ℕ
deriving DecidableEq

/-- `BTagging::GetAlgoFlavour` (BTagging.cc lines 281..352), without
`flavourDefault`. -/
def getAlgoFlavour (dr : Cand → Cand → ℚ) (drJet : Cand → ℚ)
    (all lhes partons : List Cand) (deltaR : ℚ) : AlgoFlavours :=
  let st := algoLoop dr drJet all lhes deltaR initAlgoState partons
  let tempParticle := if st.tempParticle.pt ≤ 0 then st.tempHighestPt else st.tempParticle
  { heaviest := st.tempParticle.pid.natAbs
    highestPt := st.tempHighestPt.pid.natAbs
    nearest2 := st.tempNearest.pid.natAbs
    algo := tempParticle.pid.natAbs }

/-- Does the update block of `GetAlgoFlavour` ever run for `parton`?  It runs
(at least once) exactly when the LHE list is non-empty, its first element is
not a double-counting match (otherwise the inner loop breaks before the
block), the daughter check passes and the parton is within the cone. -/
def algoRecords (dr : Cand → Cand → ℚ) (drJet : Cand → ℚ) (all : List Cand)
    (deltaR : ℚ) (lhes : List Cand) (parton : Cand) : Prop :=
  (match lhes with
   | [] => False
   | lhe :: _ => ¬ isMatchAlgo dr parton lhe)
  ∧ npartonDaughters all parton = 0 ∧ drJet parton ≤ deltaR

instance (dr : Cand → Cand → ℚ) (drJet : Cand → ℚ) (all : List Cand)
    (deltaR : ℚ) (lhes : List Cand) (parton : Cand) :
    Decidable (algoRecords dr drJet all deltaR lhes parton) := by
  unfold algoRecords
  cases lhes <;> exact inferInstance

/-- Is `parton` both recorded by the update block and a b or c quark (so that
it overwrites `tempParticle`)? -/
def algoHeavyHit (dr : Cand → Cand → ℚ) (drJet : Cand → ℚ) (all : List Cand)
    (deltaR : ℚ) (lhes : List Cand) (parton : Cand) : Prop :=
  algoRecords dr drJet all deltaR lhes parton ∧
  (parton.pid.natAbs = 4 ∨ parton.pid.natAbs = 5)

instance (dr : Cand → Cand → ℚ) (drJet : Cand → ℚ) (all : List Cand)
    (deltaR : ℚ) (lhes : List Cand) (parton : Cand) :
    Decidable (algoHeavyHit dr drJet all deltaR lhes parton) := by
  unfold algoHeavyHit; infer_instance

/-- The last parton of the filtered parton list for which the update block
runs and whose |PID| is 4 or 5 — the parton whose PID ends up in
`tempParticle`. -/
def lastHeavyRecorded (dr : Cand → Cand → ℚ) (drJet : Cand → ℚ)
    (all lhes : List Cand) (deltaR : ℚ) (partons : List Cand) : Option Cand :=
  partons.foldl
    (fun acc p =>
      if algoHeavyHit dr drJet all deltaR lhes p then some p else acc)
    none

/-! ### Physics flavour (BTagging.cc, `BTagging::GetPhysicsFlavour`) -/

/-- The mutable locals of the first loop of `GetPhysicsFlavour` over the
filtered LHE partons. -/
structure PhysScanState where
  minDr : ℚ
  tempNearest : Cand
  tempParticle : Cand
  nInTheCone : ℕ
deriving DecidableEq

/-- The initial locals: `minDr = 1000`, `nInTheCone = 0`, default-constructed
temporaries. -/
def initPhysScanState : PhysScanState :=
  ⟨1000, defaultCand, defaultCand, 0⟩

/-- The first loop of `GetPhysicsFlavour` (BTagging.cc lines 366..379):
record the nearest status-1 LHE parton and count/record those within the
cone. -/
def physScan (drJet : Cand → ℚ) (deltaR : ℚ) :
    PhysScanState → List Cand → PhysScanState
  | st, [] => st
  | st, lhe :: rest =>
    let dist := drJet lhe
    let st :=
      if lhe.status = 1 ∧ dist < st.minDr then
        { st with tempNearest := lhe, minDr := dist }
      else st
    let st :=
      if lhe.status = 1 ∧ dist ≤ deltaR then
        { st with tempParticle := lhe, nInTheCone := st.nInTheCone + 1 }
      else st
    physScan drJet deltaR st rest

/-- The double-counting test of the contamination loop:
`parton->Momentum.DeltaR(LHEParton->Momentum) < 0.01 and parton->PID == LHEParton->PID and LHEParton->Charge == parton->Charge`. -/
def isMatchPhys (dr : Cand → Cand → ℚ) (parton lhe : Cand) : Prop :=
  dr parton lhe < 1/100 ∧ parton.pid = lhe.pid ∧ lhe.charge = parton.charge

instance (dr : Cand → Cand → ℚ) (parton lhe : Cand) :
    Decidable (isMatchPhys dr parton lhe) := by
  unfold isMatchPhys; infer_instance

/-- The inner iteration of the contamination loop over the *shared* LHE
iterator (the source resets `itLHEPartonArray` once, before the outer parton
loop, so each outer iteration resumes where the previous one stopped): scan
forward until a match (returning `false` and the rest of the iterator) or
until the iterator is exhausted (returning `true` and the empty iterator). -/
def physMatchScan (dr : Cand → Cand → ℚ) (parton : Cand) :
    List Cand → Bool × List Cand
  | [] => (true, [])
  | lhe :: rest =>
    if isMatchPhys dr parton lhe then (false, rest)
    else physMatchScan dr parton rest

/-- The contamination loop of `GetPhysicsFlavour` (BTagging.cc lines
381..397): among the filtered post-shower partons not matched to an LHE
parton, those with a daughter, with |PID| ≥ 4 and ≠ 21, within 0.7 of the jet
enter the contamination list. -/
def physContamLoop (dr : Cand → Cand → ℚ) (drJet : Cand → ℚ) :
    List Cand → List Cand → List Cand → List Cand
  | [], _, acc => acc
  | p :: ps, iter, acc =>
    let scanned := physMatchScan dr p iter
    let acc :=
      if scanned.1 = false then acc
      else if p.d1 ≠ -1 ∨ p.d2 ≠ -1 then
        if p.pid.natAbs < 4 ∨ p.pid.natAbs = 21 then acc
        else if drJet p < 7/10 then acc ++ [p]
        else acc
      else acc
    physContamLoop dr drJet ps scanned.2 acc

/-- The mother test of the decision loop (BTagging.cc line 410): the
contaminating parton has a mother, and the candidate at index `M1` of
`allParticles` is within 0.001 of the initial parton.  (The source reads
`At(M1)` whenever `M1 != -1 || M2 != -1`; `Int.toNat` maps the sentinel `-1`
to index 0, a case no theorem below exercises, matching the out-of-bounds
read the C++ would perform.) -/
def motherMatch (dr : Cand → Cand → ℚ) (all : List Cand)
    (c tempParticle : Cand) : Prop :=
  (c.m1 ≠ -1 ∨ c.m2 ≠ -1) ∧
  dr (all.getD c.m1.toNat defaultCand) tempParticle < 1/1000

instance (dr : Cand → Cand → ℚ) (all : List Cand) (c tempParticle : Cand) :
    Decidable (motherMatch dr all c tempParticle) := by
  unfold motherMatch; infer_instance

/-- The decision loop of `GetPhysicsFlavour` (BTagging.cc lines 404..416):
starting from `|tempParticle.PID|`, walk the contamination list; skip
contaminants whose mother is the initial parton; if the initial parton is a c,
a contaminant of any other flavour resets the result to 0 and breaks, while a
c contaminant is skipped. -/
def physDecisionLoop (dr : Cand → Cand → ℚ) (all : List Cand)
    (tempParticle : Cand) : ℕ → List Cand → ℕ
  | flav, [] => flav
  | flav, c :: rest =>
    if motherMatch dr all c tempParticle then
      physDecisionLoop dr all tempParticle flav rest
    else if tempParticle.pid.natAbs = 4 then
      if c.pid.natAbs = 4 then physDecisionLoop dr all tempParticle flav rest
      else 0
    else physDecisionLoop dr all tempParticle flav rest

/-- `BTagging::GetPhysicsFlavour` (BTagging.cc lines 355..419), returning
`(flavourNearest3, flavourPhysics)`. -/
def getPhysicsFlavour (dr : Cand → Cand → ℚ) (drJet : Cand → ℚ)
    (all lhes partons : List Cand) (deltaR : ℚ) : ℕ × ℕ :=
  let st := physScan drJet deltaR initPhysScanState lhes
  let contaminations := physContamLoop dr drJet partons lhes []
  let nearest3 := st.tempNearest.pid.natAbs
  let physics :=
    if st.nInTheCone ≠ 1 then 0
    else if contaminations.length = 0 then st.tempParticle.pid.natAbs
    else physDecisionLoop dr all st.tempParticle st.tempParticle.pid.natAbs contaminations
  (nearest3, physics)

/-- The status-1 LHE partons within `ΔR ≤ fDeltaR` of the jet, in list order —
the partons counted by `nInTheCone` (and recorded into `tempParticle`) by the
first loop of `GetPhysicsFlavour`. -/
def physInCone (drJet : Cand → ℚ) (deltaR : ℚ) : List Cand → List Cand
  | [] => []
  | l :: rest =>
    if l.status = 1 ∧ drJet l ≤ deltaR then l :: physInCone drJet deltaR rest
    else physInCone drJet deltaR rest

/-! ### Stochastic tag assignment (BTagging.cc, `BTagging::Process`) -/

/-- An external `DelphesFormula`, evaluated as `formula->Eval(pt, eta)`. -/
structure Formula where
  eval : ℚ → ℚ → ℚ

/-- The efficiency-formula lookup of `BTagging::Process`:
`itEfficiencyMap = fEfficiencyMap.find(flavour); if(end) find(0);`.
`BTagging::Init` guarantees key 0 is present, compiling the constant formula
`"0.0"` if the configuration supplies none, which the final fallback models. -/
def effLookup (effMap : List (ℕ × Formula)) (flavour : ℕ) : Formula :=
  match effMap.find? fun e => e.1 == flavour with
  | some e => e.2
  | none =>
    match effMap.find? fun e => e.1 == 0 with
    | some e => e.2
    | none => ⟨fun _ _ => 0⟩

/-- One `|=` update of `BTagging::Process`, e.g.
`jet->BTagHeaviest |= (randomNumber <= formula->Eval(pt, eta)) << fBitNumber;`
on the 32-bit unsigned field. -/
def setTagBit (field : ℕ) (bitNumber : ℕ) (r : ℚ) (f : Formula)
    (pt eta : ℚ) : ℕ :=
  (field ||| ((if r ≤ f.eval pt eta then 1 else 0) <<< bitNumber)) % 2 ^ 32

/-- The per-jet data `BTagging::Process` reads and writes: kinematics, the
seven flavour variants and the seven `BTag…` bit fields. -/
structure JetTagIn where
  pt : ℚ
  eta : ℚ
  flavourHeaviest : ℕ
  flavourHighestPt : ℕ
  flavourNearest2 : ℕ
  flavourNearest3 : ℕ
  flavourAlgo : ℕ
  flavourPhysics : ℕ
  flavourDefault : ℕ
  btagHeaviest : ℕ
  btagHighestPt : ℕ
  btagNearest2 : ℕ
  btagNearest3 : ℕ
  btagAlgo : ℕ
  btagPhysics : ℕ
  btagDefault : ℕ

/-- The tagging part of the per-jet body of `BTagging::Process` (lines
210..274): one uniform draw `r = gRandom->Uniform()` is made per jet and the
same `r` is used for all seven variants. -/
def btagProcessJet (effMap : List (ℕ × Formula)) (bitNumber : ℕ) (r : ℚ)
    (jet : JetTagIn) : JetTagIn :=
  { jet with
    btagHeaviest :=
      setTagBit jet.btagHeaviest bitNumber r (effLookup effMap jet.flavourHeaviest) jet.pt jet.eta
    btagHighestPt :=
      setTagBit jet.btagHighestPt bitNumber r (effLookup effMap jet.flavourHighestPt) jet.pt jet.eta
    btagNearest2 :=
      setTagBit jet.btagNearest2 bitNumber r (effLookup effMap jet.flavourNearest2) jet.pt jet.eta
    btagNearest3 :=
      setTagBit jet.btagNearest3 bitNumber r (effLookup effMap jet.flavourNearest3) jet.pt jet.eta
    btagAlgo :=
      setTagBit jet.btagAlgo bitNumber r (effLookup effMap jet.flavourAlgo) jet.pt jet.eta
    btagPhysics :=
      setTagBit jet.btagPhysics bitNumber r (effLookup effMap jet.flavourPhysics) jet.pt jet.eta
    btagDefault :=
      setTagBit jet.btagDefault bitNumber r (effLookup effMap jet.flavourDefault) jet.pt jet.eta }

/-! ## Theorems -/

/-! ### Bin lookup: helper lemmas -/

theorem lowerBound_le_length (xs : List ℚ) (x : ℚ) : lowerBound xs x ≤ xs.length := by
  induction xs with
  | nil => exact Nat.le_refl 0
  | cons y ys ih =>
    rw [lowerBound]
    split
    · exact Nat.succ_le_succ ih
    · exact Nat.zero_le _

theorem getD_lt_of_lt_lowerBound (xs : List ℚ) (x : ℚ) (j : ℕ)
    (hj : j < lowerBound xs x) : xs.getD j 0 < x := by
  induction xs generalizing j with
  | nil => simp [lowerBound] at hj
  | cons y ys ih =>
    rw [lowerBound] at hj
    by_cases h : y < x
    · rw [if_pos h] at hj
      cases j with
      | zero => simpa using h
      | succ j =>
        simp only [List.getD_cons_succ]
        exact ih j (Nat.lt_of_succ_lt_succ hj)
    · rw [if_neg h] at hj
      exact absurd hj (Nat.not_lt_zero j)

theorem le_getD_lowerBound (xs : List ℚ) (x : ℚ)
    (h : lowerBound xs x < xs.length) : x ≤ xs.getD (lowerBound xs x) 0 := by
  induction xs with
  | nil => simp [lowerBound] at h
  | cons y ys ih =>
    rw [lowerBound] at h ⊢
    by_cases hy : y < x
    · rw [if_pos hy] at h ⊢
      simp only [List.getD_cons_succ]
      exact ih (Nat.lt_of_succ_lt_succ h)
    · rw [if_neg hy]
      simpa using le_of_not_lt hy

theorem le_lowerBound_of_forall (xs : List ℚ) (x : ℚ) (k : ℕ)
    (hk : k ≤ xs.length) (h : ∀ j, j < k → xs.getD j 0 < x) :
    k ≤ lowerBound xs x := by
  induction xs generalizing k with
  | nil => simpa [lowerBound] using hk
  | cons y ys ih =>
    cases k with
    | zero => exact Nat.zero_le _
    | succ k =>
      have hy : y < x := by simpa using h 0 (Nat.succ_pos k)
      rw [lowerBound, if_pos hy]
      refine Nat.succ_le_succ (ih k (Nat.le_of_succ_le_succ hk) fun j hj => ?_)
      simpa using h (j + 1) (Nat.succ_lt_succ hj)

theorem sorted_getD_mono (xs : List ℚ) (hs : List.Sorted (· < ·) xs)
    (i j : ℕ) (hij : i ≤ j) (hj : j < xs.length) :
    xs.getD i 0 ≤ xs.getD j 0 := by
  rcases Nat.eq_or_lt_of_le hij with rfl | hlt
  · exact le_refl _
  · have hi : i < xs.length := Nat.lt_trans hlt hj
    rw [xs.getD_eq_getElem 0 hi, xs.getD_eq_getElem 0 hj]
    exact le_of_lt (List.pairwise_iff_get.1 hs ⟨i, hi⟩ ⟨j, hj⟩ hlt)

/-! ### Claim C1 -/

/-- Claim C1 counterexample: with η edges `[0, 1, 2]`, a particle at
η = 2 = `fEtaBins.back()` is NOT dropped — the lookup assigns it bin 2
(the bin with edges 1 and 2) — and a particle exactly on the interior edge
η = 1 is assigned bin 1, whose edges are 0 and 1, i.e. the bin *below* the
edge, not the upper bin the claim asserts. -/
theorem findBin_edge_counterexample :
    findBin [0, 1, 2] 2 = some 2 ∧ findBin [0, 1, 2] 1 = some 1 := by
  constructor <;> rfl

/-- Claim C1 (amended): the bins of the Calorimeter lookup are
exclusive-lower, *inclusive-upper*: for a strictly sorted edge vector, the
lookup returns bin `k` (whose edges are `edges[k-1]` and `edges[k]`) exactly
when `edges[k-1] < x ≤ edges[k]`; in particular a coordinate equal to an
interior or to the last configured edge falls into the bin whose *upper* edge
it is, a coordinate equal to the first edge (or below it, or above the last
edge) is dropped, and a particle at η = `fEtaBins.back()` lands in the topmost
bin rather than being dropped. -/
theorem findBin_eq_some_iff (edges : List ℚ) (x : ℚ) (k : ℕ)
    (hs : List.Sorted (· < ·) edges) :
    findBin edges x = some k ↔
      0 < k ∧ k < edges.length ∧ edges.getD (k - 1) 0 < x ∧ x ≤ edges.getD k 0 := by
  simp only [findBin]
  constructor
  · intro h
    split at h
    · exact absurd h (Option.some_ne_none k).symm
    · rename_i hne
      push_neg at hne
      have hk : lowerBound edges x = k := Option.some_injective _ h
      have h0 : 0 < k := Nat.pos_of_ne_zero (hk ▸ hne.1)
      have hlen : k < edges.length :=
        Nat.lt_of_le_of_ne (hk ▸ lowerBound_le_length edges x) (hk ▸ hne.2)
      refine ⟨h0, hlen, ?_, ?_⟩
      · have hlt : k - 1 < lowerBound edges x := by
          rw [hk]; exact Nat.sub_lt h0 Nat.one_pos
        exact getD_lt_of_lt_lowerBound edges x (k - 1) hlt
      · have hlt : lowerBound edges x < edges.length := by rw [hk]; exact hlen
        simpa [hk] using le_getD_lowerBound edges x hlt
  · rintro ⟨h0, hlen, hlo, hhi⟩
    have hub : lowerBound edges x ≤ k := by
      by_contra hgt
      push_neg at hgt
      exact absurd (getD_lt_of_lt_lowerBound edges x k hgt) (not_lt.2 hhi)
    have hlb : k ≤ lowerBound edges x := by
      refine le_lowerBound_of_forall edges x k (le_of_lt hlen) fun j hj => ?_
      calc edges.getD j 0 ≤ edges.getD (k - 1) 0 :=
            sorted_getD_mono edges hs j (k - 1) (Nat.le_sub_one_of_lt hj)
              (Nat.lt_of_le_of_lt (Nat.sub_le k 1) hlen)
        _ < x := hlo
    have hk : lowerBound edges x = k := Nat.le_antisymm hub hlb
    rw [if_neg]
    · exact congrArg some hk
    · push_neg
      exact ⟨hk ▸ Nat.pos_iff_ne_zero.1 h0, hk ▸ Nat.ne_of_lt hlen⟩

/-- Witness for `findBin_eq_some_iff`: with edges `[0, 1, 2]`, the value 3/2
is assigned bin 2 with edges 1 and 2. -/
theorem findBin_eq_some_iff_witness : findBin [0, 1, 2] (3/2) = some 2 := by
  refine (findBin_eq_some_iff [0, 1, 2] (3/2) 2 ?_).2 ⟨?_, ?_, ?_, ?_⟩
  · refine List.sorted_cons.2 ⟨?_, List.sorted_cons.2 ⟨?_, ?_⟩⟩ <;> norm_num
  · norm_num
  · norm_num
  · norm_num
  · norm_num

/-! ### Claim C9 -/

/-- Claim C9: `Calorimeter::LogNormal(mean, sigma)` returns 0 for every
mean ≤ 0, and for every mean > 0 it returns `exp(a + b·g)` with
`b = sqrt(log(1 + sigma²/mean²))`, `a = log mean − b²/2` and `g` the one
standard normal draw. -/
theorem logNormal_spec (F : MathOps) (g mean sigma : ℚ) :
    (mean ≤ 0 → logNormal F g mean sigma = 0) ∧
    (0 < mean →
      logNormal F g mean sigma =
        F.exp ((F.log mean - (F.sqrt (F.log (1 + sigma ^ 2 / mean ^ 2))) ^ 2 / 2) +
          F.sqrt (F.log (1 + sigma ^ 2 / mean ^ 2)) * g)) := by
  have harg : 1 + sigma * sigma / (mean * mean) = 1 + sigma ^ 2 / mean ^ 2 := by
    ring
  constructor
  · intro h
    rw [logNormal, if_neg (not_lt.2 h)]
  · intro h
    rw [logNormal, if_pos h, harg]
    ring_nf

/-- Witness for `logNormal_spec`: with every external function the identity,
mean 0 gives 0 and mean 1, σ 0, g 0 gives the value of the stated formula. -/
theorem logNormal_spec_witness :
    logNormal ⟨fun x => x, fun x => x, fun x => x⟩ 7 0 3 = 0 ∧
    logNormal ⟨fun x => x, fun x => x, fun x => x⟩ 0 1 0 =
      ((1:ℚ) - ((1:ℚ) + 0 ^ 2 / 1 ^ 2) ^ 2 / 2) + (1 + 0 ^ 2 / 1 ^ 2) * 0 := by
  constructor
  · exact (logNormal_spec ⟨fun x => x, fun x => x, fun x => x⟩ 7 0 3).1 le_rfl
  · have h := (logNormal_spec ⟨fun x => x, fun x => x, fun x => x⟩ 0 1 0).2 one_pos
    simpa using h

/-! ### Claim C2 -/

/-- Claim C2 (code bug): `detaMax` and `dphiMax` are initialised once, before
the loop over the output jets, so every jet's `DeltaEta`/`DeltaPhi` is a
running maximum over the constituents of *all* jets processed so far.  At the
failing input — jet 1 at η = 0 with one constituent at η = 1/2, jet 2 at
η = 3 with its only constituent exactly on its axis — the code records
`DeltaEta = 1/2` for *both* jets, although the maximum over jet 2's own
constituents is 0. -/
theorem deltaEta_crosstalk_at_failing_input :
    (fastJetExport (fun a b => a - b)
        [⟨0, 0, [(1/2, 0)]⟩, ⟨3, 0, [(3, 0)]⟩]).map JetOut.deltaEta = [1/2, 1/2] ∧
    specDeltaEta ⟨3, 0, [(3, 0)]⟩ = 0 := by
  have h1 : |(0:ℚ) - 1/2| = 1/2 := by norm_num
  have h2 : |(3:ℚ) - 3| = 0 := by norm_num
  have h3 : |(0:ℚ) - 0| = 0 := by norm_num
  constructor
  · simp only [fastJetExport, jetExportLoop, jetConstituentScan, List.foldl, h1, h2, h3]
    norm_num
  · simp only [specDeltaEta, List.map, List.foldl, h2]
    norm_num

/-! ### Claim C7 -/

/-- Claim C7: the substructure observables are computed exactly when the jet
pT exceeds 200 — for pT ≤ 200 the fields keep their zero defaults and the
result does not depend on the (never invoked) trimmer output — and when
computed, `TrimmedMass` is the trimmed mass clamped to be non-negative,
`MassDrop` is the largest-subjet mass divided by `TrimmedMass` (1 when
`TrimmedMass` is 0), `NSubJets` counts the surviving subjets, the τ values
are the N-subjettiness outputs, and the three tags follow their mass-window
criteria. -/
theorem substructure_gate_spec (pt : ℚ) (trim : TrimResult) (nsub : NSubResult) :
    (pt ≤ 200 → computeSubstructure pt trim nsub = defaultSubstructure) ∧
    (200 < pt →
      computeSubstructure pt trim nsub =
        { trimmedMass := max 0 trim.trimmedMassRaw
          nSubJets := trim.subjetMasses.length
          massDrop :=
            if max 0 trim.trimmedMassRaw = 0 then 1
            else largestSubjetMass trim.subjetMasses / max 0 trim.trimmedMassRaw
          tau1 := nsub.tau1
          tau2 := nsub.tau2
          tau3 := nsub.tau3
          wTag :=
            if (if max 0 trim.trimmedMassRaw = 0 then 1
                else largestSubjetMass trim.subjetMasses / max 0 trim.trimmedMassRaw) < 2/5 ∧
               60 < max 0 trim.trimmedMassRaw ∧ max 0 trim.trimmedMassRaw < 120
            then 1 else 0
          topTag :=
            if 3 ≤ trim.subjetMasses.length ∧
               140 < max 0 trim.trimmedMassRaw ∧ max 0 trim.trimmedMassRaw < 230
            then 1 else 0
          hTag :=
            if (if max 0 trim.trimmedMassRaw = 0 then 1
                else largestSubjetMass trim.subjetMasses / max 0 trim.trimmedMassRaw) < 2/5 ∧
               100 < max 0 trim.trimmedMassRaw ∧ max 0 trim.trimmedMassRaw < 140
            then 1 else 0 }) := by
  have hclamp : (if trim.trimmedMassRaw < 0 then (0:ℚ) else trim.trimmedMassRaw) =
      max 0 trim.trimmedMassRaw := by
    rcases lt_or_le trim.trimmedMassRaw 0 with h | h
    · rw [if_pos h, max_eq_left h.le]
    · rw [if_neg (not_lt.2 h), max_eq_right h]
  constructor
  · intro h
    rw [computeSubstructure, if_neg (not_lt.2 h)]
  · intro h
    rw [computeSubstructure, if_pos h]
    simp only [hclamp, ite_not]

/-- Witness for `substructure_gate_spec`: a jet of pT 100 keeps the zero
defaults, and a jet of pT 300 with raw trimmed mass −1 (clamped to 0) and no
subjets gets `MassDrop` 1. -/
theorem substructure_gate_spec_witness :
    computeSubstructure 100 ⟨-1, [5]⟩ ⟨1, 2, 3⟩ = defaultSubstructure ∧
    (computeSubstructure 300 ⟨-1, []⟩ ⟨1, 2, 3⟩).massDrop = 1 := by
  constructor
  · exact (substructure_gate_spec 100 ⟨-1, [5]⟩ ⟨1, 2, 3⟩).1 (by norm_num)
  · have h := (substructure_gate_spec 300 ⟨-1, []⟩ ⟨1, 2, 3⟩).2 (by norm_num)
    rw [h]
    norm_num

/-! ### Claim C10 -/

/-- Claim C10: `FinalizeTower` appends the tower to the `towers` output (and
can append it to `photons`) only when the smeared total energy
`Eem + Ehad` is strictly positive; when that energy is zero the tower goes to
neither array, while the accumulated tracks are appended to `eflowTracks`
unchanged in every case. -/
theorem finalizeTower_emission_spec (F : MathOps) (gE gH sigmaE sigmaH : ℚ)
    (st : TowerState) :
    ((finalizeTower F gE gH sigmaE sigmaH st).towersOut ≠ [] →
      0 < logNormal F gE st.ecalEnergy sigmaE + logNormal F gH st.hcalEnergy sigmaH) ∧
    ((finalizeTower F gE gH sigmaE sigmaH st).photonsOut ≠ [] →
      0 < logNormal F gE st.ecalEnergy sigmaE + logNormal F gH st.hcalEnergy sigmaH) ∧
    (logNormal F gE st.ecalEnergy sigmaE + logNormal F gH st.hcalEnergy sigmaH = 0 →
      (finalizeTower F gE gH sigmaE sigmaH st).towersOut = [] ∧
      (finalizeTower F gE gH sigmaE sigmaH st).photonsOut = []) ∧
    (finalizeTower F gE gH sigmaE sigmaH st).eflowTracksOut = st.tracks := by
  by_cases hE :
      0 < logNormal F gE st.ecalEnergy sigmaE + logNormal F gH st.hcalEnergy sigmaH
  · refine ⟨fun _ => hE, fun _ => hE, fun h0 => absurd h0 (ne_of_gt hE), ?_⟩
    simp [finalizeTower]
  · have h1 : (finalizeTower F gE gH sigmaE sigmaH st).towersOut = [] := by
      simp [finalizeTower, if_neg hE]
    have h2 : (finalizeTower F gE gH sigmaE sigmaH st).photonsOut = [] := by
      simp [finalizeTower, if_neg hE]
    exact ⟨fun h => absurd h1 h, fun h => absurd h2 h, fun _ => ⟨h1, h2⟩,
      by simp [finalizeTower]⟩

/-- Witness for `finalizeTower_emission_spec`: a tower with no accumulated
energy (both log-normal means 0, hence both smeared energies 0) is emitted to
neither `towers` nor `photons`, while its one accumulated track still reaches
`eflowTracks`. -/
theorem finalizeTower_emission_spec_witness :
    (finalizeTower ⟨fun x => x, fun x => x, fun x => x⟩ 0 0 0 0
        ⟨0, 0, 0, 0, 0, 1, [3]⟩).towersOut = [] ∧
    (finalizeTower ⟨fun x => x, fun x => x, fun x => x⟩ 0 0 0 0
        ⟨0, 0, 0, 0, 0, 1, [3]⟩).eflowTracksOut = [3] := by
  have h := finalizeTower_emission_spec ⟨fun x => x, fun x => x, fun x => x⟩ 0 0 0 0
    ⟨0, 0, 0, 0, 0, 1, [3]⟩
  refine ⟨(h.2.2.1 ?_).1, h.2.2.2⟩
  norm_num [logNormal]

/-! ### Claim C8 -/

/-- Claim C8 counterexample: a tower whose only content is one
electron/photon-flagged hit of zero energy has a photon hit and no track
hits — the claim's condition for emission to `photons` — yet the smeared
total energy is 0, so `FinalizeTower` does not emit it to `photons` (the
photon test sits inside the `energy > 0` block). -/
theorem photonEmission_zeroEnergy_counterexample :
    0 < (⟨0, 0, 0, 0, 0, 1, []⟩ : TowerState).photonHits ∧
    (⟨0, 0, 0, 0, 0, 1, []⟩ : TowerState).trackHits = 0 ∧
    (finalizeTower ⟨fun x => x, fun x => x, fun x => x⟩ 0 0 0 0
        ⟨0, 0, 0, 0, 0, 1, []⟩).photonsOut = [] := by
  refine ⟨Nat.one_pos, rfl, ?_⟩
  norm_num [finalizeTower, logNormal]

/-- Claim C8 (amended): a finalized tower is emitted to `photons` iff its
smeared total energy `Eem + Ehad` is strictly positive *and* it has at least
one electron/photon-flagged hit and no track hits. -/
theorem photonEmission_iff (F : MathOps) (gE gH sigmaE sigmaH : ℚ)
    (st : TowerState) :
    (finalizeTower F gE gH sigmaE sigmaH st).photonsOut ≠ [] ↔
      (0 < logNormal F gE st.ecalEnergy sigmaE + logNormal F gH st.hcalEnergy sigmaH ∧
       0 < st.photonHits ∧ st.trackHits = 0) := by
  by_cases hE :
      0 < logNormal F gE st.ecalEnergy sigmaE + logNormal F gH st.hcalEnergy sigmaH
  · by_cases hp : 0 < st.photonHits ∧ st.trackHits = 0
    · simp [finalizeTower, if_pos hE, if_pos hp, hE, hp]
    · simp [finalizeTower, if_pos hE, if_neg hp, hp]
  · simp [finalizeTower, if_neg hE, hE]

/-- Witness for `photonEmission_iff`: a tower with positive smeared energy
(identity externals: mean 1, σ 0 smears to 1/2), one photon hit and no track
hits is emitted to `photons`. -/
theorem photonEmission_iff_witness :
    (finalizeTower ⟨fun x => x, fun x => x, fun x => x⟩ 0 0 0 0
        ⟨1, 0, 0, 0, 0, 2, []⟩).photonsOut ≠ [] := by
  refine (photonEmission_iff ⟨fun x => x, fun x => x, fun x => x⟩ 0 0 0 0
    ⟨1, 0, 0, 0, 0, 2, []⟩).2 ⟨?_, ?_, rfl⟩
  · norm_num [logNormal]
  · norm_num

/-! ### Claim C5: helper lemmas -/

theorem setTagBit_testBit (field bitNumber : ℕ) (r : ℚ) (f : Formula) (pt eta : ℚ)
    (hb : bitNumber < 32) (hf : field < 2 ^ 32) :
    (∀ m, m ≠ bitNumber →
      (setTagBit field bitNumber r f pt eta).testBit m = field.testBit m) ∧
    ((setTagBit field bitNumber r f pt eta).testBit bitNumber =
      (field.testBit bitNumber || decide (r ≤ f.eval pt eta))) := by
  set b : ℕ := if r ≤ f.eval pt eta then 1 else 0 with hbdef
  have hb01 : b = 0 ∨ b = 1 := by rw [hbdef]; split <;> simp
  have hlt : b <<< bitNumber < 2 ^ 32 := by
    rw [Nat.shiftLeft_eq]
    rcases hb01 with h | h <;> rw [h]
    · simp
    · rw [Nat.one_mul]
      exact Nat.pow_lt_pow_right (by norm_num) hb
  have hor : field ||| (b <<< bitNumber) < 2 ^ 32 := Nat.or_lt_two_pow hf hlt
  have hmod : setTagBit field bitNumber r f pt eta = field ||| (b <<< bitNumber) := by
    rw [setTagBit, ← hbdef, Nat.mod_eq_of_lt hor]
  constructor
  · intro m hm
    rw [hmod, Nat.testBit_or, Nat.testBit_shiftLeft]
    have hz : (decide (bitNumber ≤ m) && b.testBit (m - bitNumber)) = false := by
      rcases lt_or_le m bitNumber with h | h
      · simp [Nat.not_le.2 h]
      · have hpos : m - bitNumber ≠ 0 :=
          Nat.sub_ne_zero_of_lt (lt_of_le_of_ne h (Ne.symm hm))
        have hbit : b.testBit (m - bitNumber) = false := by
          rcases hb01 with hb0 | hb1
          · rw [hb0]; exact Nat.zero_testBit _
          · rw [hb1, ← Bool.not_eq_true, Nat.testBit_one_eq_true_iff_self_eq_zero]
            exact hpos
        simp [hbit]
    rw [hz, Bool.or_false]
  · rw [hmod, Nat.testBit_or, Nat.testBit_shiftLeft, Nat.sub_self]
    have hb0 : b.testBit 0 = decide (r ≤ f.eval pt eta) := by
      rw [hbdef]
      split <;> rename_i h
      · simp [h]
      · simp [h]
    simp [hb0]

theorem setTagBit_iff_of_clear (field bitNumber : ℕ) (r : ℚ) (f : Formula)
    (pt eta : ℚ) (hb : bitNumber < 32) (hf : field < 2 ^ 32)
    (hclear : field.testBit bitNumber = false) :
    ((setTagBit field bitNumber r f pt eta).testBit bitNumber = true ↔
      r ≤ f.eval pt eta) := by
  rw [(setTagBit_testBit field bitNumber r f pt eta hb hf).2, hclear, Bool.false_or,
    decide_eq_true_eq]

/-! ### Claim C5 -/

/-- Claim C5: `BTagging::Process` draws one shared uniform number `r` per jet
(`btagProcessJet` takes a single `r`, used by all seven variants); for each
variant, bit `fBitNumber` of the corresponding `BTag…` field is set iff
`r ≤` the efficiency formula keyed by that variant's flavour (with fallback
key 0) evaluated at the jet's (pT, η) — given that the bit starts clear, as
it does on the zero-initialised candidates the jet finder produces — and no
bit other than bit `fBitNumber` of any of the seven fields is modified. -/
theorem btagProcessJet_bit_spec (effMap : List (ℕ × Formula)) (bitNumber : ℕ)
    (r : ℚ) (jet : JetTagIn) (hb : bitNumber < 32)
    (h1 : jet.btagHeaviest < 2 ^ 32) (h2 : jet.btagHighestPt < 2 ^ 32)
    (h3 : jet.btagNearest2 < 2 ^ 32) (h4 : jet.btagNearest3 < 2 ^ 32)
    (h5 : jet.btagAlgo < 2 ^ 32) (h6 : jet.btagPhysics < 2 ^ 32)
    (h7 : jet.btagDefault < 2 ^ 32) :
    ((∀ m, m ≠ bitNumber →
        (btagProcessJet effMap bitNumber r jet).btagHeaviest.testBit m =
          jet.btagHeaviest.testBit m) ∧
      (jet.btagHeaviest.testBit bitNumber = false →
        ((btagProcessJet effMap bitNumber r jet).btagHeaviest.testBit bitNumber = true ↔
          r ≤ (effLookup effMap jet.flavourHeaviest).eval jet.pt jet.eta))) ∧
    ((∀ m, m ≠ bitNumber →
        (btagProcessJet effMap bitNumber r jet).btagHighestPt.testBit m =
          jet.btagHighestPt.testBit m) ∧
      (jet.btagHighestPt.testBit bitNumber = false →
        ((btagProcessJet effMap bitNumber r jet).btagHighestPt.testBit bitNumber = true ↔
          r ≤ (effLookup effMap jet.flavourHighestPt).eval jet.pt jet.eta))) ∧
    ((∀ m, m ≠ bitNumber →
        (btagProcessJet effMap bitNumber r jet).btagNearest2.testBit m =
          jet.btagNearest2.testBit m) ∧
      (jet.btagNearest2.testBit bitNumber = false →
        ((btagProcessJet effMap bitNumber r jet).btagNearest2.testBit bitNumber = true ↔
          r ≤ (effLookup effMap jet.flavourNearest2).eval jet.pt jet.eta))) ∧
    ((∀ m, m ≠ bitNumber →
        (btagProcessJet effMap bitNumber r jet).btagNearest3.testBit m =
          jet.btagNearest3.testBit m) ∧
      (jet.btagNearest3.testBit bitNumber = false →
        ((btagProcessJet effMap bitNumber r jet).btagNearest3.testBit bitNumber = true ↔
          r ≤ (effLookup effMap jet.flavourNearest3).eval jet.pt jet.eta))) ∧
    ((∀ m, m ≠ bitNumber →
        (btagProcessJet effMap bitNumber r jet).btagAlgo.testBit m =
          jet.btagAlgo.testBit m) ∧
      (jet.btagAlgo.testBit bitNumber = false →
        ((btagProcessJet effMap bitNumber r jet).btagAlgo.testBit bitNumber = true ↔
          r ≤ (effLookup effMap jet.flavourAlgo).eval jet.pt jet.eta))) ∧
    ((∀ m, m ≠ bitNumber →
        (btagProcessJet effMap bitNumber r jet).btagPhysics.testBit m =
          jet.btagPhysics.testBit m) ∧
      (jet.btagPhysics.testBit bitNumber = false →
        ((btagProcessJet effMap bitNumber r jet).btagPhysics.testBit bitNumber = true ↔
          r ≤ (effLookup effMap jet.flavourPhysics).eval jet.pt jet.eta))) ∧
    ((∀ m, m ≠ bitNumber →
        (btagProcessJet effMap bitNumber r jet).btagDefault.testBit m =
          jet.btagDefault.testBit m) ∧
      (jet.btagDefault.testBit bitNumber = false →
        ((btagProcessJet effMap bitNumber r jet).btagDefault.testBit bitNumber = true ↔
          r ≤ (effLookup effMap jet.flavourDefault).eval jet.pt jet.eta))) := by
  refine ⟨⟨?_, ?_⟩, ⟨?_, ?_⟩, ⟨?_, ?_⟩, ⟨?_, ?_⟩, ⟨?_, ?_⟩, ⟨?_, ?_⟩, ⟨?_, ?_⟩⟩
  · exact (setTagBit_testBit jet.btagHeaviest bitNumber r
      (effLookup effMap jet.flavourHeaviest) jet.pt jet.eta hb h1).1
  · exact fun hc => setTagBit_iff_of_clear jet.btagHeaviest bitNumber r
      (effLookup effMap jet.flavourHeaviest) jet.pt jet.eta hb h1 hc
  · exact (setTagBit_testBit jet.btagHighestPt bitNumber r
      (effLookup effMap jet.flavourHighestPt) jet.pt jet.eta hb h2).1
  · exact fun hc => setTagBit_iff_of_clear jet.btagHighestPt bitNumber r
      (effLookup effMap jet.flavourHighestPt) jet.pt jet.eta hb h2 hc
  · exact (setTagBit_testBit jet.btagNearest2 bitNumber r
      (effLookup effMap jet.flavourNearest2) jet.pt jet.eta hb h3).1
  · exact fun hc => setTagBit_iff_of_clear jet.btagNearest2 bitNumber r
      (effLookup effMap jet.flavourNearest2) jet.pt jet.eta hb h3 hc
  · exact (setTagBit_testBit jet.btagNearest3 bitNumber r
      (effLookup effMap jet.flavourNearest3) jet.pt jet.eta hb h4).1
  · exact fun hc => setTagBit_iff_of_clear jet.btagNearest3 bitNumber r
      (effLookup effMap jet.flavourNearest3) jet.pt jet.eta hb h4 hc
  · exact (setTagBit_testBit jet.btagAlgo bitNumber r
      (effLookup effMap jet.flavourAlgo) jet.pt jet.eta hb h5).1
  · exact fun hc => setTagBit_iff_of_clear jet.btagAlgo bitNumber r
      (effLookup effMap jet.flavourAlgo) jet.pt jet.eta hb h5 hc
  · exact (setTagBit_testBit jet.btagPhysics bitNumber r
      (effLookup effMap jet.flavourPhysics) jet.pt jet.eta hb h6).1
  · exact fun hc => setTagBit_iff_of_clear jet.btagPhysics bitNumber r
      (effLookup effMap jet.flavourPhysics) jet.pt jet.eta hb h6 hc
  · exact (setTagBit_testBit jet.btagDefault bitNumber r
      (effLookup effMap jet.flavourDefault) jet.pt jet.eta hb h7).1
  · exact fun hc => setTagBit_iff_of_clear jet.btagDefault bitNumber r
      (effLookup effMap jet.flavourDefault) jet.pt jet.eta hb h7 hc

/-- Witness for `btagProcessJet_bit_spec`: on a fresh jet (all `BTag…` fields
0) with an empty efficiency map (so every lookup falls back to the constant
0 formula) and a draw `r = 0 ≤ 0`, bit 0 of `BTagHeaviest` is set and bit 5
is untouched. -/
theorem btagProcessJet_bit_spec_witness :
    (btagProcessJet [] 0 0
        ⟨10, 1, 5, 4, 3, 2, 1, 0, 0, 0, 0, 0, 0, 0, 0, 0⟩).btagHeaviest.testBit 0 = true ∧
    (btagProcessJet [] 0 0
        ⟨10, 1, 5, 4, 3, 2, 1, 0, 0, 0, 0, 0, 0, 0, 0, 0⟩).btagHeaviest.testBit 5 =
      (0 : ℕ).testBit 5 := by
  have h := btagProcessJet_bit_spec [] 0 0
    ⟨10, 1, 5, 4, 3, 2, 1, 0, 0, 0, 0, 0, 0, 0, 0, 0⟩
    (by norm_num) (by norm_num) (by norm_num) (by norm_num) (by norm_num)
    (by norm_num) (by norm_num) (by norm_num)
  constructor
  · refine (h.1.2 (by norm_num)).2 ?_
    simp [effLookup]
  · exact h.1.1 5 (by norm_num)

/-! ### Claim C6: helper lemmas -/

theorem shiftLeft_or_small (a b n : ℕ) (hb : b < 2 ^ n) :
    (a <<< n) ||| b = a * 2 ^ n + b := by
  rw [Nat.shiftLeft_eq, Nat.mul_comm a, ← Nat.mul_add_lt_is_or hb a]

theorem packHit_eq_sum (e p f i : ℕ) (hp : p < 2 ^ 16) (hf : f < 2 ^ 8)
    (hi : i < 2 ^ 24) :
    packHit e p f i = e * 2 ^ 48 + p * 2 ^ 32 + f * 2 ^ 24 + i := by
  have h1 : f * 2 ^ 24 + i < 2 ^ 32 := by norm_num at hf hi ⊢; omega
  have h2 : p * 2 ^ 32 + (f * 2 ^ 24 + i) < 2 ^ 48 := by
    norm_num at hp hf hi ⊢; omega
  rw [packHit, Nat.or_assoc ((e <<< 48) ||| (p <<< 32)) (f <<< 24) i,
    shiftLeft_or_small f i 24 hi,
    Nat.or_assoc (e <<< 48) (p <<< 32) (f * 2 ^ 24 + i),
    shiftLeft_or_small p (f * 2 ^ 24 + i) 32 h1,
    shiftLeft_or_small e (p * 2 ^ 32 + (f * 2 ^ 24 + i)) 48 h2]
  ring

theorem hitEtaPhi_packHit (e p f i : ℕ) (hp : p < 2 ^ 16) (hf : f < 2 ^ 8)
    (hi : i < 2 ^ 24) :
    hitEtaPhi (packHit e p f i) = e * 2 ^ 16 + p := by
  rw [hitEtaPhi, packHit_eq_sum e p f i hp hf hi, Nat.shiftRight_eq_div_pow]
  norm_num at hp hf hi ⊢
  omega

theorem hitFlags_packHit (e p f i : ℕ) (hp : p < 2 ^ 16) (hf : f < 2 ^ 8)
    (hi : i < 2 ^ 24) :
    hitFlags (packHit e p f i) = f := by
  rw [hitFlags, packHit_eq_sum e p f i hp hf hi, Nat.shiftRight_eq_div_pow]
  norm_num at hp hf hi ⊢
  omega

/-! ### Claim C6 -/

/-- Claim C6 counterexample: in the tower (ηBin, φBin) = (1, 1), the packed
word of a particle hit with no flags (a hadron, `flags = 0`, index 5) sorts
*before* the packed word of a track hit (`flags = 1`, index 0): the ascending
sort places this particle hit ahead of the track hit of the same tower, so it
is not the case that within a tower every track hit precedes every particle
hit. -/
theorem hitSort_trackOrder_counterexample :
    sortHits [packHit 1 1 1 0, packHit 1 1 0 5] =
      [packHit 1 1 0 5, packHit 1 1 1 0] ∧
    hitFlags (packHit 1 1 0 5) = 0 ∧
    hitFlags (packHit 1 1 1 0) = 1 ∧
    hitEtaPhi (packHit 1 1 0 5) = hitEtaPhi (packHit 1 1 1 0) := by
  refine ⟨?_, by decide, by decide, by decide⟩
  rw [sortHits, List.mergeSort_eq_insertionSort]
  decide

/-- Claim C6 (amended): the ascending sort of the packed hit words leaves the
hits of each (ηBin, φBin) tower contiguous (the key is the top 32 bits, which
the scan recovers as `towerHit >> 32`), but within one tower the hits are
ordered by the flags byte and then by the index: particle hits with neither
flag (`flags = 0`, hadrons) come *before* track hits (`flags = 1`), which in
turn come before electron/photon particle hits (`flags = 2`); tracks therefore
precede the electron/photon particle hits but not the unflagged ones. -/
theorem hitSort_grouping_spec :
    (∀ l : List ℕ, List.Sorted (· ≤ ·) (sortHits l) ∧ (sortHits l).Perm l) ∧
    (∀ (l : List ℕ) (i j k : ℕ), List.Sorted (· ≤ ·) l → i ≤ j → j ≤ k →
      k < l.length → hitEtaPhi (l.getD i 0) = hitEtaPhi (l.getD k 0) →
      hitEtaPhi (l.getD j 0) = hitEtaPhi (l.getD i 0)) ∧
    (∀ e p f1 i1 f2 i2 : ℕ, p < 2 ^ 16 → f1 < 2 ^ 8 → i1 < 2 ^ 24 →
      f2 < 2 ^ 8 → i2 < 2 ^ 24 →
      hitEtaPhi (packHit e p f1 i1) = hitEtaPhi (packHit e p f2 i2) ∧
      (packHit e p f1 i1 < packHit e p f2 i2 ↔
        (f1 < f2 ∨ (f1 = f2 ∧ i1 < i2)))) := by
  refine ⟨?_, ?_, ?_⟩
  · intro l
    exact ⟨List.sorted_mergeSort' l, List.mergeSort_perm l _⟩
  · intro l i j k hs hij hjk hk hik
    have hj : j < l.length := Nat.lt_of_le_of_lt hjk hk
    have hi : i < l.length := Nat.lt_of_le_of_lt hij hj
    have mono : ∀ a b : ℕ, a ≤ b → b < l.length → l.getD a 0 ≤ l.getD b 0 := by
      intro a b hab hb
      rcases Nat.eq_or_lt_of_le hab with rfl | hlt
      · exact le_refl _
      · have ha : a < l.length := Nat.lt_trans hlt hb
        rw [l.getD_eq_getElem 0 ha, l.getD_eq_getElem 0 hb]
        exact List.pairwise_iff_get.1 hs ⟨a, ha⟩ ⟨b, hb⟩ hlt
    have hmono : ∀ a b : ℕ, a ≤ b → hitEtaPhi a ≤ hitEtaPhi b := by
      intro a b hab
      rw [hitEtaPhi, hitEtaPhi, Nat.shiftRight_eq_div_pow, Nat.shiftRight_eq_div_pow]
      exact Nat.div_le_div_right hab
    have h1 : hitEtaPhi (l.getD i 0) ≤ hitEtaPhi (l.getD j 0) :=
      hmono _ _ (mono i j hij hj)
    have h2 : hitEtaPhi (l.getD j 0) ≤ hitEtaPhi (l.getD k 0) :=
      hmono _ _ (mono j k hjk hk)
    exact Nat.le_antisymm (hik ▸ h2) h1
  · intro e p f1 i1 f2 i2 hp hf1 hi1 hf2 hi2
    refine ⟨?_, ?_⟩
    · rw [hitEtaPhi_packHit e p f1 i1 hp hf1 hi1, hitEtaPhi_packHit e p f2 i2 hp hf2 hi2]
    · rw [packHit_eq_sum e p f1 i1 hp hf1 hi1, packHit_eq_sum e p f2 i2 hp hf2 hi2]
      norm_num at hf1 hi1 hf2 hi2 ⊢
      omega

/-- Witness for `hitSort_grouping_spec`: instantiated on a concrete sorted
two-hit tower and on concrete packed fields. -/
theorem hitSort_grouping_spec_witness :
    List.Sorted (· ≤ ·) (sortHits [packHit 1 1 1 0, packHit 1 1 0 5]) ∧
    (packHit 2 3 0 7 < packHit 2 3 1 0 ↔ (0 < 1 ∨ (0 = 1 ∧ 7 < 0))) := by
  have h := hitSort_grouping_spec
  refine ⟨(h.1 [packHit 1 1 1 0, packHit 1 1 0 5]).1, ?_⟩
  exact (h.2.2 2 3 0 7 1 0 (by norm_num) (by norm_num) (by norm_num)
    (by norm_num) (by norm_num)).2

/-! ### Claim C3: helper lemmas -/

theorem option_or_getD (x y : Option Cand) (d : Cand) :
    (x.or y).getD d = x.getD (y.getD d) := by
  cases x <;> rfl

theorem algoUpdate_tempParticle (parton : Cand) (dist : ℚ) (st : AlgoState) :
    (algoUpdate parton dist st).tempParticle =
      if parton.pid.natAbs = 4 ∨ parton.pid.natAbs = 5 then parton
      else st.tempParticle := by
  simp only [algoUpdate]
  split_ifs <;> first | rfl | simp_all

theorem algoInner_tempParticle (dr : Cand → Cand → ℚ) (drJet : Cand → ℚ)
    (all : List Cand) (deltaR : ℚ) (parton : Cand) (st : AlgoState)
    (lhes : List Cand) :
    (algoInner dr drJet all deltaR parton st lhes).tempParticle =
      if algoHeavyHit dr drJet all deltaR lhes parton then parton
      else st.tempParticle := by
  induction lhes generalizing st with
  | nil =>
    have hno : ¬ algoHeavyHit dr drJet all deltaR [] parton := fun h => h.1.1
    rw [algoInner, if_neg hno]
  | cons lhe rest ih =>
    rw [algoInner]
    by_cases hm : isMatchAlgo dr parton lhe
    · have hno : ¬ algoHeavyHit dr drJet all deltaR (lhe :: rest) parton :=
        fun h => h.1.1 hm
      rw [if_pos hm, if_neg hno]
    · rw [if_neg hm]
      by_cases hd : 0 < npartonDaughters all parton
      · have h1 : ¬ algoHeavyHit dr drJet all deltaR rest parton :=
          fun h => (Nat.pos_iff_ne_zero.1 hd) h.1.2.1
        have h2 : ¬ algoHeavyHit dr drJet all deltaR (lhe :: rest) parton :=
          fun h => (Nat.pos_iff_ne_zero.1 hd) h.1.2.1
        rw [if_pos hd, ih st, if_neg h1, if_neg h2]
      · rw [if_neg hd]
        by_cases hc : drJet parton ≤ deltaR
        · rw [if_pos hc, ih _, algoUpdate_tempParticle]
          by_cases hbc : parton.pid.natAbs = 4 ∨ parton.pid.natAbs = 5
          · have hhit : algoHeavyHit dr drJet all deltaR (lhe :: rest) parton :=
              ⟨⟨hm, Nat.eq_zero_of_not_pos hd, hc⟩, hbc⟩
            rw [if_pos hbc, if_pos hhit]
            split_ifs <;> rfl
          · have h1 : ¬ algoHeavyHit dr drJet all deltaR rest parton :=
              fun h => hbc h.2
            have h2 : ¬ algoHeavyHit dr drJet all deltaR (lhe :: rest) parton :=
              fun h => hbc h.2
            rw [if_neg hbc, if_neg h1, if_neg h2]
        · have h1 : ¬ algoHeavyHit dr drJet all deltaR rest parton :=
            fun h => hc h.1.2.2
          have h2 : ¬ algoHeavyHit dr drJet all deltaR (lhe :: rest) parton :=
            fun h => hc h.1.2.2
          rw [if_neg hc, ih st, if_neg h1, if_neg h2]

theorem lastHeavy_foldl_init (dr : Cand → Cand → ℚ) (drJet : Cand → ℚ)
    (all lhes : List Cand) (deltaR : ℚ) (partons : List Cand) (a : Option Cand) :
    partons.foldl
        (fun acc p =>
          if algoHeavyHit dr drJet all deltaR lhes p then some p else acc) a =
      (partons.foldl
        (fun acc p =>
          if algoHeavyHit dr drJet all deltaR lhes p then some p else acc)
        none).or a := by
  induction partons generalizing a with
  | nil => cases a <;> rfl
  | cons p ps ih =>
    rw [List.foldl_cons, List.foldl_cons]
    by_cases h : algoHeavyHit dr drJet all deltaR lhes p
    · rw [if_pos h, if_pos h, ih (some p), Option.or_assoc]
      rfl
    · rw [if_neg h, if_neg h, ih a]

theorem algoLoop_tempParticle (dr : Cand → Cand → ℚ) (drJet : Cand → ℚ)
    (all lhes : List Cand) (deltaR : ℚ) (st : AlgoState) (partons : List Cand) :
    (algoLoop dr drJet all lhes deltaR st partons).tempParticle =
      (lastHeavyRecorded dr drJet all lhes deltaR partons).getD st.tempParticle := by
  induction partons generalizing st with
  | nil => rfl
  | cons p ps ih =>
    have hstep : lastHeavyRecorded dr drJet all lhes deltaR (p :: ps) =
        (lastHeavyRecorded dr drJet all lhes deltaR ps).or
          (if algoHeavyHit dr drJet all deltaR lhes p then some p else none) := by
      rw [lastHeavyRecorded, List.foldl_cons]
      exact lastHeavy_foldl_init dr drJet all lhes deltaR ps _
    rw [algoLoop, ih, hstep, option_or_getD, algoInner_tempParticle]
    by_cases h : algoHeavyHit dr drJet all deltaR lhes p
    · simp [h]
    · simp [h]

/-! ### Claim C3 -/

/-- Claim C3 counterexample: two qualifying partons — a b quark (|PID| = 5)
followed by a c quark (|PID| = 4) — both lie in the jet cone, both pass the
daughter check and neither matches the one LHE parton, yet `flavourHeaviest`
ends up 4, because the c quark, walked *after* the b quark, overwrites
`tempParticle` unconditionally; the claim requires 5 whenever a b is in the
cone. -/
theorem algoFlavour_lastWins_counterexample :
    algoRecords (fun _ _ => 1) (fun _ => 0) [] 1
        [{ defaultCand with pid := 2, status := 1, pt := 1 }]
        { defaultCand with pid := 5, pt := 10 } ∧
    ({ defaultCand with pid := 5, pt := 10 } : Cand).pid.natAbs = 5 ∧
    (getAlgoFlavour (fun _ _ => 1) (fun _ => 0) []
        [{ defaultCand with pid := 2, status := 1, pt := 1 }]
        [{ defaultCand with pid := 5, pt := 10 },
         { defaultCand with pid := 4, pt := 1 }]
        1).heaviest = 4 := by
  have h := algoLoop_tempParticle (fun _ _ => 1) (fun _ => 0) []
    [{ defaultCand with pid := 2, status := 1, pt := 1 }] 1 initAlgoState
    [{ defaultCand with pid := 5, pt := 10 },
     { defaultCand with pid := 4, pt := 1 }]
  refine ⟨?_, by norm_num [defaultCand], ?_⟩
  · norm_num [algoRecords, isMatchAlgo, npartonDaughters, defaultCand]
  · simp only [getAlgoFlavour, h, lastHeavyRecorded, List.foldl]
    norm_num [algoHeavyHit, algoRecords, isMatchAlgo, npartonDaughters, defaultCand]

/-- Claim C3 (amended): `flavourHeaviest` is the |PID| of the *last* parton in
iteration order that the in-cone update block records with |PID| ∈ {4, 5} —
so a c quark walked after a b quark overwrites it — and 0 when no such parton
exists; `flavourAlgo` equals that value except that when the recorded parton
has pT ≤ 0 or none exists, it falls back to `flavourHighestPt`.  (A parton is
recorded only if the filtered LHE list is non-empty and its first entry is not
a double-counting match, the parton's daughter check passes, and it lies
within `ΔR ≤ fDeltaR` of the jet.) -/
theorem getAlgoFlavour_heaviest_spec (dr : Cand → Cand → ℚ) (drJet : Cand → ℚ)
    (all lhes partons : List Cand) (deltaR : ℚ) :
    ((getAlgoFlavour dr drJet all lhes partons deltaR).heaviest =
      ((lastHeavyRecorded dr drJet all lhes deltaR partons).map
        (fun p => p.pid.natAbs)).getD 0) ∧
    ((getAlgoFlavour dr drJet all lhes partons deltaR).algo =
      match lastHeavyRecorded dr drJet all lhes deltaR partons with
      | some p =>
          if p.pt ≤ 0 then (getAlgoFlavour dr drJet all lhes partons deltaR).highestPt
          else p.pid.natAbs
      | none => (getAlgoFlavour dr drJet all lhes partons deltaR).highestPt) := by
  have h := algoLoop_tempParticle dr drJet all lhes deltaR initAlgoState partons
  cases hl : lastHeavyRecorded dr drJet all lhes deltaR partons with
  | none =>
    rw [hl, Option.getD_none] at h
    constructor
    · simp only [getAlgoFlavour, h]
      simp [initAlgoState, defaultCand]
    · simp only [getAlgoFlavour, h]
      simp [initAlgoState, defaultCand]
  | some p =>
    rw [hl, Option.getD_some] at h
    constructor
    · simp only [getAlgoFlavour, h]
      simp
    · simp only [getAlgoFlavour, h]
      by_cases hpt : p.pt ≤ 0
      · simp [hpt]
      · simp [hpt]

/-! ### Claim C4: helper lemmas -/

theorem getLast?_cons_getD (l : Cand) (xs : List Cand) (d : Cand) :
    ((l :: xs).getLast?).getD d = (xs.getLast?).getD l := by
  rw [List.getLast?_cons, Option.getD_some]

theorem physScan_count (drJet : Cand → ℚ) (deltaR : ℚ) (st : PhysScanState)
    (lhes : List Cand) :
    (physScan drJet deltaR st lhes).nInTheCone =
      st.nInTheCone + (physInCone drJet deltaR lhes).length := by
  induction lhes generalizing st with
  | nil => simp [physScan, physInCone]
  | cons l rest ih =>
    rw [physScan, physInCone]
    split_ifs <;> rw [ih] <;> simp <;> omega

theorem physScan_tempParticle (drJet : Cand → ℚ) (deltaR : ℚ)
    (st : PhysScanState) (lhes : List Cand) :
    (physScan drJet deltaR st lhes).tempParticle =
      ((physInCone drJet deltaR lhes).getLast?).getD st.tempParticle := by
  induction lhes generalizing st with
  | nil => simp [physScan, physInCone]
  | cons l rest ih =>
    rw [physScan, physInCone]
    split_ifs <;> rw [ih] <;> simp [getLast?_cons_getD]

theorem physDecisionLoop_spec (dr : Cand → Cand → ℚ) (all : List Cand)
    (tempParticle : Cand) (flav : ℕ) (cs : List Cand) :
    physDecisionLoop dr all tempParticle flav cs =
      if tempParticle.pid.natAbs = 4 ∧
         ∃ c ∈ cs, ¬ motherMatch dr all c tempParticle ∧ c.pid.natAbs ≠ 4
      then 0 else flav := by
  induction cs with
  | nil =>
    rw [physDecisionLoop, if_neg]
    rintro ⟨-, c, hc, -⟩
    exact absurd hc (List.not_mem_nil c)
  | cons c rest ih =>
    rw [physDecisionLoop]
    by_cases hmm : motherMatch dr all c tempParticle
    · rw [if_pos hmm, ih]
      refine if_congr ⟨fun h => ⟨h.1, ?_⟩, fun h => ⟨h.1, ?_⟩⟩ rfl rfl
      · obtain ⟨x, hx, hxm, hx4⟩ := h.2
        exact ⟨x, List.mem_cons_of_mem c hx, hxm, hx4⟩
      · obtain ⟨x, hx, hxm, hx4⟩ := h.2
        rcases List.mem_cons.1 hx with rfl | hx
        · exact absurd hmm hxm
        · exact ⟨x, hx, hxm, hx4⟩
    · rw [if_neg hmm]
      by_cases h4 : tempParticle.pid.natAbs = 4
      · rw [if_pos h4]
        by_cases hc4 : c.pid.natAbs = 4
        · rw [if_pos hc4, ih]
          refine if_congr ⟨fun h => ⟨h.1, ?_⟩, fun h => ⟨h.1, ?_⟩⟩ rfl rfl
          · obtain ⟨x, hx, hxm, hx4⟩ := h.2
            exact ⟨x, List.mem_cons_of_mem c hx, hxm, hx4⟩
          · obtain ⟨x, hx, hxm, hx4⟩ := h.2
            rcases List.mem_cons.1 hx with rfl | hx
            · exact absurd hc4 (by simpa using hx4)
            · exact ⟨x, hx, hxm, hx4⟩
        · rw [if_neg hc4, if_pos ⟨h4, c, List.mem_cons_self c rest, hmm, hc4⟩]
      · rw [if_neg h4, ih, if_neg (fun h => h4 h.1), if_neg (fun h => h4 h.1)]

/-! ### Claim C4 -/

/-- Claim C4 counterexample: exactly one status-1 LHE parton, a b quark
(|PID| = 5), lies in the cone, and the contamination set holds one decaying c
quark (|PID| = 4 ≠ 5) whose mother list is empty — so not the initial parton.
The claim demands `flavourPhysics` revert to 0, but the code's reset branch is
guarded by `|tempParticle.PID| == 4`, so the b assignment survives: the result
is 5. -/
theorem physicsFlavour_bInitial_counterexample :
    physInCone (fun _ => 0) 1 [{ defaultCand with pid := 5, status := 1, pt := 1 }] =
      [{ defaultCand with pid := 5, status := 1, pt := 1 }] ∧
    physContamLoop (fun _ _ => 1) (fun _ => 0)
        [{ defaultCand with pid := 4, d1 := 7, pt := 1 }]
        [{ defaultCand with pid := 5, status := 1, pt := 1 }] [] =
      [{ defaultCand with pid := 4, d1 := 7, pt := 1 }] ∧
    ¬ motherMatch (fun _ _ => 1) [] { defaultCand with pid := 4, d1 := 7, pt := 1 }
        { defaultCand with pid := 5, status := 1, pt := 1 } ∧
    (getPhysicsFlavour (fun _ _ => 1) (fun _ => 0) []
        [{ defaultCand with pid := 5, status := 1, pt := 1 }]
        [{ defaultCand with pid := 4, d1 := 7, pt := 1 }]
        1).2 = 5 := by
  refine ⟨?_, ?_, ?_, ?_⟩
  · norm_num [physInCone, defaultCand]
  · norm_num [physContamLoop, physMatchScan, isMatchPhys, defaultCand]
  · norm_num [motherMatch, defaultCand]
  · norm_num [getPhysicsFlavour, physScan, physContamLoop, physMatchScan,
      physDecisionLoop, isMatchPhys, motherMatch, initPhysScanState, defaultCand]

/-- Claim C4 (amended): `flavourPhysics` is 0 unless exactly one status-1 LHE
parton lies within `ΔR ≤ fDeltaR` of the jet; when exactly one does, it is
that parton's |PID| — *except* that when that parton is a c (|PID| = 4) and
the contamination set contains a parton of a different flavour whose mother is
not the initial parton, the value reverts to 0.  For an initial parton of any
other flavour (a b in particular) contaminants never reset the value, and a
contaminant of the same flavour c never resets it either. -/
theorem getPhysicsFlavour_spec (dr : Cand → Cand → ℚ) (drJet : Cand → ℚ)
    (all lhes partons : List Cand) (deltaR : ℚ) :
    (getPhysicsFlavour dr drJet all lhes partons deltaR).2 =
      (match physInCone drJet deltaR lhes with
       | [p] =>
         if p.pid.natAbs = 4 ∧
            ∃ c ∈ physContamLoop dr drJet partons lhes [],
              ¬ motherMatch dr all c p ∧ c.pid.natAbs ≠ 4
         then 0 else p.pid.natAbs
       | _ => 0) := by
  have hcount := physScan_count drJet deltaR initPhysScanState lhes
  have htemp := physScan_tempParticle drJet deltaR initPhysScanState lhes
  simp only [getPhysicsFlavour]
  cases hcone : physInCone drJet deltaR lhes with
  | nil =>
    rw [hcone] at hcount
    rw [if_pos]
    rw [hcount]
    simp [initPhysScanState]
  | cons p rest =>
    cases rest with
    | nil =>
      rw [hcone] at hcount htemp
      have hn : (physScan drJet deltaR initPhysScanState lhes).nInTheCone = 1 := by
        rw [hcount]; rfl
      have ht : (physScan drJet deltaR initPhysScanState lhes).tempParticle = p := by
        rw [htemp]; rfl
      rw [if_neg (by rw [hn]; exact fun h => h rfl), ht]
      by_cases hcs : (physContamLoop dr drJet partons lhes []).length = 0
      · rw [if_pos hcs]
        have hempty : physContamLoop dr drJet partons lhes [] = [] :=
          List.length_eq_zero.1 hcs
        dsimp only
        rw [if_neg]
        rintro ⟨-, c, hc, -⟩
        rw [hempty] at hc
        exact absurd hc (List.not_mem_nil c)
      · rw [if_neg hcs, physDecisionLoop_spec]
    | cons q rest2 =>
      rw [hcone] at hcount
      rw [if_pos]
      rw [hcount]
      simp only [initPhysScanState, List.length_cons]
      omega

end Delphes
